import Mathlib

/-!
Verification of the agentkit-mesh core: the resource/URI matcher, the
discovery engine and the delegation client, shallowly embedded from the
TypeScript sources (`src/discovery.ts`, `src/delegation.ts`, the HTTP
server's async-result route and the registry's delegation ledger).

Strings are modelled by Lean `String`; the JavaScript string operations
used by the source (`startsWith`, `endsWith`, `includes`, `slice(0,-1)`,
`split`, `toLowerCase`, `join`) are given explicit executable definitions
over the character list.  JavaScript numbers that feed score arithmetic
are modelled by `ℚ` (the source only ever forms ratios of small counts).
-/

namespace Mesh

/-- JavaScript `req.startsWith(p)`: `p` is a prefix of `req`. -/
def strStartsWith (s p : String) : Bool :=
  p.data.isPrefixOf s.data

/-- JavaScript `s.endsWith(p)`: `p` is a suffix of `s`. -/
def strEndsWith (s p : String) : Bool :=
  p.data.isSuffixOf s.data

/-- JavaScript `s.slice(0, -1)`: drop the last character. -/
def dropLastChar (s : String) : String :=
  String.mk s.data.dropLast

/-- Occurrence of `p` as a contiguous sublist of `s`. -/
def containsSub (p : List Char) : List Char → Bool
  | [] => p.isEmpty
  | c :: rest => p.isPrefixOf (c :: rest) || containsSub p rest

/-- JavaScript `s.includes(p)`: substring containment. -/
def strContains (s p : String) : Bool :=
  containsSub p.data s.data

/-- JavaScript `s.toLowerCase()` (ASCII case folding suffices for the
repository's capability tags and queries). -/
def strToLower (s : String) : String :=
  String.mk (s.data.map Char.toLower)

end Mesh

namespace Discovery

open Mesh

/-- The components of a parsed URL that `DiscoveryEngine.uriMatches`
reads: `URL.protocol` (scheme with trailing colon), `URL.host`
(authority up to the first slash, so a `host:port` pair stays one
string) and `URL.pathname`. -/
structure URLRec where
  protocol : String
  host : String
  pathname : String
deriving DecidableEq

/-- Characters the URL scheme may contain after its leading letter. -/
def isSchemeChar (c : Char) : Bool :=
  c.isAlphanum || c = '+' || c = '-' || c = '.'

/-- Split `scheme:rest` at the first colon, validating the scheme
characters seen on the way; `acc` holds the scheme read so far,
reversed. -/
def schemeSplit : List Char → List Char → Option (List Char × List Char)
  | [], _ => none
  | c :: rest, acc =>
    if c = ':' then some (acc.reverse, rest)
    else if isSchemeChar c then schemeSplit rest (c :: acc)
    else none

/-- Models the platform `new URL(s)` constructor on the hierarchical
`scheme://host/path` URIs the repository uses, returning `none` where
the constructor throws (no scheme, bad scheme character, or no `//`
authority).  Simplifications that the repository's resource URIs never
exercise: no case normalisation of scheme or host, no default-port
elision, no userinfo, and no query/fragment splitting; a special-scheme
URL with empty path keeps pathname `""` rather than `"/"` (immaterial to
every theorem below, which either treats the parser structurally or
supplies explicit paths). -/
def parseURL (s : String) : Option URLRec :=
  match schemeSplit s.data [] with
  | none => none
  | some (scheme, rest) =>
    match scheme with
    | [] => none
    | c :: _ =>
      if c.isAlpha then
        match rest with
        | '/' :: '/' :: auth =>
          some ⟨String.mk (scheme ++ [':']),
                String.mk (auth.takeWhile (fun c => c ≠ '/')),
                String.mk (auth.dropWhile (fun c => c ≠ '/'))⟩
        | _ => none
      else none

/-- `DiscoveryEngine.pathMatches` (discovery.ts, URL-parsing revision):
exact equality; glob `/foo/*` via `slice(0,-1)` prefix; root `/` covers
any path starting with `/`; parent covers child via `agentPath + '/'`
prefix. -/
def pathMatches (agentPath requiredPath : String) : Bool :=
  if agentPath = requiredPath then true
  else if strEndsWith agentPath "/*" && strStartsWith requiredPath (dropLastChar agentPath) then true
  else if agentPath = "/" && strStartsWith requiredPath "/" then true
  else if strStartsWith requiredPath (agentPath ++ "/") then true
  else false

/-- `DiscoveryEngine.stringPrefixMatch` (discovery.ts): the fallback for
strings that fail URL parsing.  A glob grant answers the prefix test
alone; otherwise the requirement may extend the grant with a separator
or extend it directly. -/
def stringPrefixMatch (agentUri requiredUri : String) : Bool :=
  if strEndsWith agentUri "/*" then
    strStartsWith requiredUri (dropLastChar agentUri)
  else
    strStartsWith requiredUri (agentUri ++ "/") || strStartsWith requiredUri agentUri

/-- `DiscoveryEngine.uriMatches` (discovery.ts, URL-parsing revision):
byte-identical strings match; if both parse, scheme and host must agree
and the pathnames are compared; if either fails to parse, fall back to
raw string matching. -/
def uriMatches (agentUri requiredUri : String) : Bool :=
  if agentUri = requiredUri then true
  else
    match parseURL agentUri, parseURL requiredUri with
    | some a, some r =>
      if a.protocol ≠ r.protocol then false
      else if a.host ≠ r.host then false
      else pathMatches a.pathname r.pathname
    | _, _ => stringPrefixMatch agentUri requiredUri

/-- `DiscoveryEngine.resourceMatches` (discovery.ts, plain-string
revision): exact match, glob, separator-extension, or plain prefix
extension — no URL parsing at all. -/
def resourceMatches (agentUri requiredUri : String) : Bool :=
  if agentUri = requiredUri then true
  else if strEndsWith agentUri "/*" && strStartsWith requiredUri (dropLastChar agentUri) then true
  else if strStartsWith requiredUri (agentUri ++ "/") then true
  else if strStartsWith requiredUri agentUri then true
  else false

/-- A resource grant held by an agent (registry.ts `AgentResource`);
only the fields discovery reads are modelled. -/
structure AgentResource where
  type : String
  uri : String
deriving DecidableEq

/-- An agent record as `registry.list()` returns it (registry.ts
`AgentRecord`); only the fields discovery reads are modelled. -/
structure AgentRecord where
  name : String
  description : String
  capabilities : List String
  resources : List AgentResource
  endpoint : String
deriving DecidableEq

/-- `ResourceRequirement` (discovery.ts, URL-parsing revision): a bare
required URI. -/
structure ResourceRequirement where
  uri : String
deriving DecidableEq

/-- `DiscoveryResult` (discovery.ts). -/
structure DiscoveryResult where
  agent : AgentRecord
  score : ℚ
  matchedCapabilities : List String
  matchedResources : List AgentResource
deriving DecidableEq

/-- A character the JavaScript `\W` class does not match. -/
def isWordChar (c : Char) : Bool :=
  c.isAlphanum || c = '_'

/-- Split an (already lower-cased) character list into its maximal runs
of word characters; `acc` holds the current run, reversed.  This is
`split(/[\s\W]+/)` followed by dropping empty pieces. -/
def splitTokensAux : List Char → List Char → List (List Char)
  | [], acc => if acc.isEmpty then [] else [acc.reverse]
  | c :: rest, acc =>
    if isWordChar c then splitTokensAux rest (c :: acc)
    else if acc.isEmpty then splitTokensAux rest acc
    else acc.reverse :: splitTokensAux rest []

/-- `DiscoveryEngine.tokenize`: lower-case, split on runs of
whitespace/non-word characters, drop empties. -/
def tokenize (query : String) : List String :=
  (splitTokensAux (query.data.map Char.toLower) []).map String.mk

/-- The per-agent corpus: lower-cased description and capability tags
joined with single spaces (`[desc, ...caps].join(' ')`). -/
def searchText (agent : AgentRecord) : String :=
  String.intercalate " " (strToLower agent.description :: agent.capabilities.map strToLower)

/-- The `requiredResources.every(...)` loop: find a grant covering each
requirement in turn, collecting the grants found; `none` as soon as one
requirement has no covering grant (the pushes made before the failure
are discarded with the candidate, as in the source). -/
def matchResources (resources : List AgentResource) : List ResourceRequirement → Option (List AgentResource)
  | [] => some []
  | req :: rest =>
    match resources.find? (fun r => uriMatches r.uri req.uri) with
    | none => none
    | some m => (matchResources resources rest).map (fun ms => m :: ms)

/-- The body of the `for (const agent of agents)` loop in
`DiscoveryEngine.discover`: token matching, resource filtering, score
with clamped resource boost.  Returns `none` when the candidate is
skipped (`continue`). -/
def scoreAgent (tokens : List String) (reqs : Option (List ResourceRequirement))
    (agent : AgentRecord) : Option DiscoveryResult :=
  let matchedCapabilities := tokens.filter (fun t => strContains (searchText agent) t)
  if matchedCapabilities = [] then none
  else
    let mres : Option (List AgentResource) :=
      match reqs with
      | some l => if l = [] then some [] else matchResources agent.resources l
      | none => some []
    match mres with
    | none => none
    | some matchedResources =>
      let capabilityScore : ℚ := (matchedCapabilities.length : ℚ) / (tokens.length : ℚ)
      let resourceBoost : ℚ :=
        match reqs with
        | some l =>
          if l = [] then 0
          else (matchedResources.length : ℚ) / (l.length : ℚ) * (2 / 10)
        | none => 0
      some ⟨agent, min (capabilityScore + resourceBoost) 1, matchedCapabilities, matchedResources⟩

/-- The resource-boost term exactly as the specification words it:
`(matched-requirement-count / total-requirement-count) x 0.2` when a
requirement list was supplied, `0` otherwise (with the `0/0` of an empty
supplied list read as `0`). -/
def claimBoost (reqs : Option (List ResourceRequirement)) (matchedCount : Nat) : ℚ :=
  match reqs with
  | some l => (matchedCount : ℚ) / (l.length : ℚ) * (2 / 10)
  | none => 0

/-- The accumulation of `results` over the candidate list, in input
order. -/
def discoverAll (tokens : List String) (reqs : Option (List ResourceRequirement)) :
    List AgentRecord → List DiscoveryResult
  | [] => []
  | a :: rest =>
    match scoreAgent tokens reqs a with
    | none => discoverAll tokens reqs rest
    | some r => r :: discoverAll tokens reqs rest

/-- Insert `x` into a list already sorted by descending score, after
every element of score ≥ `x.score` — the insertion step of a stable
descending sort, matching the stable `Array.prototype.sort` with
comparator `(a, b) => b.score - a.score`. -/
def insertDesc (x : DiscoveryResult) : List DiscoveryResult → List DiscoveryResult
  | [] => [x]
  | y :: ys => if x.score ≤ y.score then y :: insertDesc x ys else x :: y :: ys

/-- Stable sort by descending score. -/
def sortByScoreDesc (l : List DiscoveryResult) : List DiscoveryResult :=
  l.foldl (fun acc x => insertDesc x acc) []

/-- `limit ? results.slice(0, limit) : results`: a supplied limit of `0`
is falsy and means no truncation; a negative limit counts from the end
as `slice` does. -/
def applyLimit (limit : Option Int) (l : List DiscoveryResult) : List DiscoveryResult :=
  match limit with
  | none => l
  | some n =>
    if n = 0 then l
    else if 0 ≤ n then l.take n.toNat
    else l.take (l.length - (-n).toNat)

/-- `DiscoveryEngine.discover` (discovery.ts, URL-parsing revision),
with the registry snapshot `registry.list()` passed as the `agents`
list. -/
def discover (query : String) (agents : List AgentRecord) (limit : Option Int)
    (reqs : Option (List ResourceRequirement)) : List DiscoveryResult :=
  let tokens := tokenize query
  if tokens = [] then []
  else applyLimit limit (sortByScoreDesc (discoverAll tokens reqs agents))

end Discovery

namespace Delegation

open Mesh

/-- The hop-depth ceiling `MAX_DEPTH` (delegation.ts, HTTP-callback
revision). -/
def MAX_DEPTH : Int := 5

/-- The four terminal statuses of a delegation attempt. -/
inductive DStatus where
  | completed
  | failed
  | timeout
  | accepted
deriving DecidableEq

/-- `DelegationResult` (delegation.ts). -/
structure DelegationResult where
  success : Bool
  status : DStatus
  result : Option String
  error : Option String
  latencyMs : Nat
deriving DecidableEq

/-- `context` as `delegate` reads it: the reserved `depth` field (absent
allowed) plus the caller's other key/value pairs, kept opaque.  The
source's spread `{ ...opts?.context, depth: depth + 1 }` overrides any
caller-supplied `depth`, which the split into `depth`/`extra` mirrors. -/
structure DelegationContext where
  depth : Option Int
  extra : List (String × String)
deriving DecidableEq

/-- `DelegationRequest` (delegation.ts): the outbound POST body. -/
structure DelegationRequest where
  delegationId : String
  task : String
  context : DelegationContext
  callbackUrl : Option String
deriving DecidableEq

/-- What `fetch` resolved to, as far as `delegate` inspects it:
`response.status`, the `response.text()` used on error bodies, the
optional `data.result` field of the parsed JSON and the
`JSON.stringify(data)` fallback text. -/
structure HttpResponse where
  status : Nat
  bodyText : String
  jsonResult : Option String
  jsonText : String
deriving DecidableEq

/-- The network outcome of the single `fetch` call: either a response,
or a thrown exception carrying `err.name` and `err.message`.  Expiry of
`AbortSignal.timeout` surfaces as an exception named `TimeoutError`. -/
inductive FetchOutcome where
  | response (r : HttpResponse)
  | exn (name : String) (msg : String)
deriving DecidableEq

/-- The observable effect of one `delegate` call: the returned outcome,
whether the `fetch` was issued at all, and the payload it carried. -/
structure DelegateTrace where
  outcome : DelegationResult
  networkCalled : Bool
  payload : Option DelegationRequest
deriving DecidableEq

/-- `(opts?.context?.depth as number) ?? 0`: the caller's hop depth,
defaulting to `0` when the context or its `depth` field is absent. -/
def ctxDepth (context : Option DelegationContext) : Int :=
  (context.bind (fun c => c.depth)).getD 0

/-- `DelegationClient.delegate` (delegation.ts, HTTP-callback revision),
with the nondeterministic environment made explicit: `net` is what the
`fetch` would produce, `elapsed` is the `Date.now() - start` reading and
`timeoutMs` the effective `opts?.timeout ?? this.timeout`.  Mirrors the
source line by line: depth guard, payload build with `depth + 1` and the
async callback URL, then 202 / non-ok / ok handling and the catch block
distinguishing timeouts by exception name or a `'timed out'` message. -/
def delegate (meshBaseUrl delegationId task : String) (context : Option DelegationContext)
    (isAsync : Bool) (timeoutMs : Nat) (net : FetchOutcome) (elapsed : Nat) : DelegateTrace :=
  let depth : Int := ctxDepth context
  if depth > MAX_DEPTH then
    { outcome :=
        { success := false, status := .failed, result := none,
          error := some ("Delegation depth " ++ toString depth ++ " exceeds max " ++ toString MAX_DEPTH),
          latencyMs := 0 },
      networkCalled := false, payload := none }
  else
    let body : DelegationRequest :=
      { delegationId := delegationId, task := task,
        context :=
          { depth := some (depth + 1),
            extra := (context.map (fun c => c.extra)).getD [] },
        callbackUrl :=
          if isAsync then some (meshBaseUrl ++ "/v1/delegations/" ++ delegationId ++ "/result")
          else none }
    match net with
    | .response r =>
      if r.status = 202 then
        { outcome :=
            { success := true, status := .accepted,
              result := some "Task accepted, awaiting async result", error := none,
              latencyMs := elapsed },
          networkCalled := true, payload := some body }
      else if ¬ (200 ≤ r.status ∧ r.status ≤ 299) then
        { outcome :=
            { success := false, status := .failed, result := none,
              error := some ("Agent returned " ++ toString r.status ++ ": " ++ r.bodyText),
              latencyMs := elapsed },
          networkCalled := true, payload := some body }
      else
        { outcome :=
            { success := true, status := .completed,
              result := some (r.jsonResult.getD r.jsonText), error := none,
              latencyMs := elapsed },
          networkCalled := true, payload := some body }
    | .exn name msg =>
      if name = "TimeoutError" || strContains msg "timed out" then
        { outcome :=
            { success := false, status := .timeout, result := none,
              error := some ("Timed out after " ++ toString timeoutMs ++ "ms"),
              latencyMs := elapsed },
          networkCalled := true, payload := some body }
      else
        { outcome :=
            { success := false, status := .failed, result := none,
              error := some msg, latencyMs := elapsed },
          networkCalled := true, payload := some body }

end Delegation

namespace Server

/-- The ledger statuses of `registry.ts` (`DelegationStatus`). -/
inductive LedgerStatus where
  | pending
  | running
  | completed
  | failed
  | timeout
  | accepted
deriving DecidableEq

/-- A delegation ledger entry (`registry.ts` `DelegationRecord`);
timestamps are not modelled. -/
structure DelegationRecord where
  id : String
  source_agent : String
  target_agent : String
  task : String
  status : LedgerStatus
  result : Option String
  error : Option String
  latency_ms : Option Int
deriving DecidableEq

/-- The JSON body an agent POSTs to the callback route. -/
structure ResultBody where
  status : Option String
  result : Option String
  error : Option String
deriving DecidableEq

/-- `AgentRegistry.updateDelegation` applied to one entry: status is
overwritten, while `result`/`error` use SQL `COALESCE(new, old)` — a
missing field keeps the stored value. -/
def updateDelegationFields (d : DelegationRecord) (st : LedgerStatus)
    (result error : Option String) : DelegationRecord :=
  { d with status := st, result := result.orElse (fun _ => d.result),
           error := error.orElse (fun _ => d.error) }

/-- The `POST /v1/delegations/:id/result` route (server.ts): 404 for an
unknown id, 409 when the entry is already finalized (`completed` or
`failed`) leaving it unchanged, 400 for an unparseable body, otherwise
apply the delivered result (`status !== 'failed'` collapses to
`completed`) and answer 200.  Returns the HTTP status code and the entry
afterwards. -/
def postDelegationResult (entry : Option DelegationRecord) (body : Option ResultBody) :
    Nat × Option DelegationRecord :=
  match entry with
  | none => (404, none)
  | some d =>
    if d.status = .completed ∨ d.status = .failed then (409, some d)
    else
      match body with
      | none => (400, some d)
      | some b =>
        let st : LedgerStatus := if b.status = some "failed" then .failed else .completed
        (200, some (updateDelegationFields d st b.result b.error))

end Server

namespace Mesh

/-- Lists that agree on a common prefix and then clash on one character
never stand in the prefix relation, whatever follows the clash. -/
theorem isPrefixOf_clash (pre : List Char) {a b : Char} (h : a ≠ b) (l₁ l₂ : List Char) :
    List.isPrefixOf (pre ++ a :: l₁) (pre ++ b :: l₂) = false := by
  induction pre with
  | nil =>
    simp only [List.nil_append, List.isPrefixOf, Bool.and_eq_false_imp]
    intro hab
    exact absurd (by simpa using hab) h
  | cons c cs ih =>
    simpa [List.isPrefixOf] using ih

/-- A string starting with `a ++ b` starts with `a`. -/
theorem strStartsWith_of_append {r a b : String} (h : strStartsWith r (a ++ b) = true) :
    strStartsWith r a = true := by
  unfold strStartsWith at h ⊢
  rw [List.isPrefixOf_iff_prefix] at h ⊢
  refine List.IsPrefix.trans ?_ h
  rw [String.data_append]
  exact List.prefix_append a.data b.data

end Mesh

open Mesh Discovery Delegation Server

/-- C2 counterexample: the plain-string matcher `resourceMatches` — one
of the two matchers the claim covers — answers `true` for a grant and a
requirement that both parse as URIs whose hosts differ (`hostA` versus
`hostAAA`), because its final clause is a bare string-prefix test. -/
theorem claim2_counterexample :
    resourceMatches "file://hostA" "file://hostAAA/x" = true ∧
    parseURL "file://hostA" = some ⟨"file:", "hostA", ""⟩ ∧
    parseURL "file://hostAAA/x" = some ⟨"file:", "hostAAA", "/x"⟩ ∧
    ("hostA" : String) ≠ "hostAAA" := by
  refine ⟨by decide, rfl, rfl, by decide⟩

/-- C2 (amended): the URL-parsing matcher `uriMatches` is scheme- and
host-exact — whenever both strings parse, a match forces equal
`protocol` and equal `host:port` — and the concrete grant
`file://hostA/x/*` never covers any requirement under host `hostB`,
under either `uriMatches` or the plain-string `resourceMatches`; the
latter, however, is not host-exact in general (see the
counterexample). -/
theorem claim2_scheme_host_exact :
    (∀ g r gu ru, parseURL g = some gu → parseURL r = some ru →
        uriMatches g r = true → gu.protocol = ru.protocol ∧ gu.host = ru.host) ∧
    (∀ gp rp, uriMatches ("file://hostA/" ++ gp) ("file://hostB/" ++ rp) = false) ∧
    (∀ rp, resourceMatches "file://hostA/x/*" ("file://hostB/" ++ rp) = false) := by
  refine ⟨?_, ?_, ?_⟩
  · intro g r gu ru hg hr hm
    by_cases heq : g = r
    · subst heq
      rw [hg] at hr
      cases Option.some.inj hr
      exact ⟨rfl, rfl⟩
    · unfold uriMatches at hm
      rw [if_neg heq] at hm
      simp only [hg, hr] at hm
      by_cases hp : gu.protocol = ru.protocol
      · by_cases hh : gu.host = ru.host
        · exact ⟨hp, hh⟩
        · rw [if_neg (not_not_intro hp), if_pos hh] at hm
          exact absurd hm (by decide)
      · rw [if_pos hp] at hm
        exact absurd hm (by decide)
  · intro gp rp
    have hg : parseURL ("file://hostA/" ++ gp) = some ⟨"file:", "hostA", "/" ++ gp⟩ := rfl
    have hr : parseURL ("file://hostB/" ++ rp) = some ⟨"file:", "hostB", "/" ++ rp⟩ := rfl
    have hne : "file://hostA/" ++ gp ≠ "file://hostB/" ++ rp := by
      intro h
      have h2 := congrArg parseURL h
      rw [hg, hr] at h2
      simp only [Option.some.injEq, URLRec.mk.injEq] at h2
      exact absurd h2.2.1 (by decide)
    unfold uriMatches
    rw [if_neg hne]
    simp only [hg, hr]
    rw [if_neg (not_not_intro rfl), if_pos (show ("hostA" : String) ≠ "hostB" by decide)]
  · intro rp
    have hne : "file://hostA/x/*" ≠ "file://hostB/" ++ rp := by
      intro h
      have h2 := congrArg parseURL h
      have hr : parseURL ("file://hostB/" ++ rp) = some ⟨"file:", "hostB", "/" ++ rp⟩ := rfl
      rw [hr, show parseURL "file://hostA/x/*" = some ⟨"file:", "hostA", "/x/*"⟩ from rfl] at h2
      simp only [Option.some.injEq, URLRec.mk.injEq] at h2
      exact absurd h2.2.1 (by decide)
    have hdata : ("file://hostB/" ++ rp).data = "file://host".data ++ 'B' :: ('/' :: rp.data) := rfl
    have h1 : strStartsWith ("file://hostB/" ++ rp) (dropLastChar "file://hostA/x/*") = false := by
      show List.isPrefixOf ("file://host".data ++ 'A' :: "/x/".data) (("file://hostB/" ++ rp).data) = false
      rw [hdata]
      exact isPrefixOf_clash _ (by decide) _ _
    have h2 : strStartsWith ("file://hostB/" ++ rp) "file://hostA/x/*/" = false := by
      show List.isPrefixOf ("file://host".data ++ 'A' :: "/x/*/".data) (("file://hostB/" ++ rp).data) = false
      rw [hdata]
      exact isPrefixOf_clash _ (by decide) _ _
    have h3 : strStartsWith ("file://hostB/" ++ rp) "file://hostA/x/*" = false := by
      show List.isPrefixOf ("file://host".data ++ 'A' :: "/x/*".data) (("file://hostB/" ++ rp).data) = false
      rw [hdata]
      exact isPrefixOf_clash _ (by decide) _ _
    unfold resourceMatches
    rw [if_neg hne]
    simp [h1, h2, h3]

/-- C2 witness: the host-exactness law applied at the concrete grant
`file://vm1/foo/*` and requirement `file://vm1/foo/bar` (which match),
recovering equal scheme and host. -/
theorem claim2_witness :
    ("file:" : String) = "file:" ∧ ("vm1" : String) = "vm1" :=
  claim2_scheme_host_exact.1 "file://vm1/foo/*" "file://vm1/foo/bar"
    ⟨"file:", "vm1", "/foo/*"⟩ ⟨"file:", "vm1", "/foo/bar"⟩ rfl rfl (by decide)

/-- C3 counterexample: under the non-URI fallback the matcher accepts
grant `/foo` for requirement `/foobar`, although none of the claim's
four conditions hold — the fallback's last clause is a bare prefix test
with no separator requirement. -/
theorem claim3_counterexample :
    uriMatches "/foo" "/foobar" = true ∧
    stringPrefixMatch "/foo" "/foobar" = true ∧
    ("/foo" : String) ≠ "/foobar" ∧
    strEndsWith "/foo" "/*" = false ∧
    strStartsWith "/foobar" ("/foo" ++ "/") = false ∧
    ("/foo" : String) ≠ "/" := by
  decide

/-- C3 (amended): the path comparison after a scheme/host match follows
the claim's four rules, except that the root-grant rule also requires
the requirement's path to start with `/`; the raw-string fallback does
NOT follow them: a glob grant answers the glob prefix test alone, and a
non-glob grant matches exactly when it is a plain prefix of the
requirement — no separator is required, so `/foo` covers `/foobar` as
well as `/foo/bar`. -/
theorem claim3_path_rules (a r : String) :
    (pathMatches a r = true ↔
      a = r ∨ (strEndsWith a "/*" = true ∧ strStartsWith r (dropLastChar a) = true) ∨
      (a = "/" ∧ strStartsWith r "/" = true) ∨ strStartsWith r (a ++ "/") = true) ∧
    (strEndsWith a "/*" = true →
      (stringPrefixMatch a r = true ↔ strStartsWith r (dropLastChar a) = true)) ∧
    (strEndsWith a "/*" = false →
      (stringPrefixMatch a r = true ↔ strStartsWith r a = true)) := by
  refine ⟨?_, ?_, ?_⟩
  · unfold pathMatches
    split_ifs with h1 h2 h3 h4 <;>
      simp_all [Bool.and_eq_true, decide_eq_true_eq]
  · intro hg
    unfold stringPrefixMatch
    rw [if_pos hg]
  · intro hg
    unfold stringPrefixMatch
    rw [if_neg (by simp [hg])]
    constructor
    · intro h
      rcases Bool.or_eq_true_iff.mp h with h | h
      · exact strStartsWith_of_append h
      · exact h
    · intro h
      exact Bool.or_eq_true_iff.mpr (Or.inr h)

/-- C3 witness: the amended rules applied at concrete paths — the
parent-covers-child rule accepts `/foo` → `/foo/bar`, and the fallback's
plain-prefix rule accepts `/foo` → `/foobar`. -/
theorem claim3_witness :
    pathMatches "/foo" "/foo/bar" = true ∧ stringPrefixMatch "/foo" "/foobar" = true :=
  ⟨(claim3_path_rules "/foo" "/foo/bar").1.mpr (Or.inr (Or.inr (Or.inr (by decide)))),
   ((claim3_path_rules "/foo" "/foobar").2.2 (by decide)).mpr (by decide)⟩

/-- C1 counterexample: at depth exactly `MAX_DEPTH` — where the claim's
`≥` reading demands an immediate zero-latency failure with no network
call — `delegate` does issue the network call (here to an unreachable
endpoint) and reports the elapsed latency, because the source guard is
the strict `depth > MAX_DEPTH`. -/
theorem claim1_counterexample :
    ctxDepth (some ⟨some 5, []⟩) ≥ MAX_DEPTH ∧
    (delegate "http://localhost:8766" "d-1" "task" (some ⟨some 5, []⟩) false 120000
        (.exn "FetchError" "connect ECONNREFUSED 127.0.0.1:1") 7).networkCalled = true ∧
    (delegate "http://localhost:8766" "d-1" "task" (some ⟨some 5, []⟩) false 120000
        (.exn "FetchError" "connect ECONNREFUSED 127.0.0.1:1") 7).outcome.latencyMs ≠ 0 := by
  decide

/-- C1 (amended): for every call whose context depth is STRICTLY greater
than `MAX_DEPTH`, `delegate` returns `failed` with the depth-exceeded
message and zero latency, and issues no network call — whatever the
endpoint would have answered, unreachable ones included. -/
theorem claim1_depth_guard (meshBaseUrl delegationId task : String)
    (context : Option DelegationContext) (isAsync : Bool) (timeoutMs : Nat)
    (net : FetchOutcome) (elapsed : Nat)
    (h : ctxDepth context > MAX_DEPTH) :
    delegate meshBaseUrl delegationId task context isAsync timeoutMs net elapsed =
      { outcome :=
          { success := false, status := .failed, result := none,
            error := some ("Delegation depth " ++ toString (ctxDepth context) ++
              " exceeds max " ++ toString MAX_DEPTH),
            latencyMs := 0 },
        networkCalled := false, payload := none } := by
  unfold delegate
  rw [if_pos h]

/-- C1 witness: the guard applied at depth 6 against an unreachable
endpoint. -/
theorem claim1_depth_guard_witness :
    delegate "http://localhost:8766" "d-1" "task" (some ⟨some 6, []⟩) false 120000
        (.exn "FetchError" "connect ECONNREFUSED 127.0.0.1:1") 7 =
      { outcome :=
          { success := false, status := .failed, result := none,
            error := some ("Delegation depth " ++ toString (ctxDepth (some ⟨some 6, []⟩)) ++
              " exceeds max " ++ toString MAX_DEPTH),
            latencyMs := 0 },
        networkCalled := false, payload := none } :=
  claim1_depth_guard "http://localhost:8766" "d-1" "task" (some ⟨some 6, []⟩) false 120000
    (.exn "FetchError" "connect ECONNREFUSED 127.0.0.1:1") 7 (by decide)

/-- C4 counterexample: a network exception that is NOT the deadline
(`AbortSignal.timeout` raises `TimeoutError`; this one is named
`FetchError`) but whose message happens to contain `'timed out'` is
classified as `timeout`, not `failed` — the catch block also matches on
the message substring. -/
theorem claim4_counterexample :
    (delegate "b" "i" "t" none false 2000
        (.exn "FetchError" "socket hang up: connection timed out") 11).outcome.status = .timeout ∧
    DStatus.timeout ≠ DStatus.failed ∧
    ("FetchError" : String) ≠ "TimeoutError" := by
  decide

/-- C4 (amended): `delegate` maps every post-guard response to exactly
one terminal outcome and never propagates an exception: deadline expiry
(the `TimeoutError` exception) yields `timeout`; a non-success non-202
HTTP response yields `failed` with the status and body embedded in the
error text; an exception whose message contains `'timed out'` is also
classified as `timeout`; every other exception is normalized to `failed`
carrying its message. -/
theorem claim4_error_mapping :
    (∀ u i t ctx a tm el msg, ¬ ctxDepth ctx > MAX_DEPTH →
       (delegate u i t ctx a tm (.exn "TimeoutError" msg) el).outcome =
         { success := false, status := .timeout, result := none,
           error := some ("Timed out after " ++ toString tm ++ "ms"), latencyMs := el }) ∧
    (∀ u i t ctx a tm el r, ¬ ctxDepth ctx > MAX_DEPTH →
       r.status ≠ 202 → ¬ (200 ≤ r.status ∧ r.status ≤ 299) →
       (delegate u i t ctx a tm (.response r) el).outcome =
         { success := false, status := .failed, result := none,
           error := some ("Agent returned " ++ toString r.status ++ ": " ++ r.bodyText),
           latencyMs := el }) ∧
    (∀ u i t ctx a tm el name msg, ¬ ctxDepth ctx > MAX_DEPTH →
       strContains msg "timed out" = true →
       (delegate u i t ctx a tm (.exn name msg) el).outcome.status = .timeout) ∧
    (∀ u i t ctx a tm el name msg, ¬ ctxDepth ctx > MAX_DEPTH →
       name ≠ "TimeoutError" → strContains msg "timed out" = false →
       (delegate u i t ctx a tm (.exn name msg) el).outcome =
         { success := false, status := .failed, result := none,
           error := some msg, latencyMs := el }) := by
  refine ⟨?_, ?_, ?_, ?_⟩
  · intro u i t ctx a tm el msg h
    unfold delegate
    rw [if_neg h]
    simp
  · intro u i t ctx a tm el r h h202 hok
    unfold delegate
    rw [if_neg h]
    simp only []
    rw [if_neg h202, if_pos hok]
  · intro u i t ctx a tm el name msg h htime
    unfold delegate
    rw [if_neg h]
    simp [htime]
  · intro u i t ctx a tm el name msg h hname htime
    unfold delegate
    rw [if_neg h]
    simp [hname, htime]

/-- C4 witness: the mapping applied at a 500 response and at the two
exception shapes. -/
theorem claim4_witness :
    (delegate "b" "i" "t" none false 2000 (.exn "TimeoutError" "x") 3).outcome =
      { success := false, status := .timeout, result := none,
        error := some ("Timed out after " ++ toString 2000 ++ "ms"), latencyMs := 3 } ∧
    (delegate "b" "i" "t" none false 2000 (.response ⟨500, "boom", none, ""⟩) 3).outcome =
      { success := false, status := .failed, result := none,
        error := some ("Agent returned " ++ toString 500 ++ ": " ++ "boom"), latencyMs := 3 } ∧
    (delegate "b" "i" "t" none false 2000 (.exn "FetchError" "ECONNREFUSED") 3).outcome =
      { success := false, status := .failed, result := none,
        error := some "ECONNREFUSED", latencyMs := 3 } :=
  ⟨claim4_error_mapping.1 "b" "i" "t" none false 2000 3 "x" (by decide),
   claim4_error_mapping.2.1 "b" "i" "t" none false 2000 3 ⟨500, "boom", none, ""⟩
     (by decide) (by decide) (by decide),
   claim4_error_mapping.2.2.2 "b" "i" "t" none false 2000 3 "FetchError" "ECONNREFUSED"
     (by decide) (by decide) (by decide)⟩

/-- C5 counterexample: on a 202 response the returned outcome's `result`
field is not empty — it carries the fixed placeholder string — so the
claim's "carries no result payload" fails as stated. -/
theorem claim5_counterexample :
    (delegate "b" "i" "t" none true 120000
        (.response ⟨202, "", some "endpoint-result", "null"⟩) 4).outcome.result =
      some "Task accepted, awaiting async result" ∧
    (delegate "b" "i" "t" none true 120000
        (.response ⟨202, "", some "endpoint-result", "null"⟩) 4).outcome.result ≠ none := by
  decide

/-- C5 (amended): a 202 response yields `accepted` with `success = true`
and no error; the `result` field carries the fixed informational string
`'Task accepted, awaiting async result'` — in particular no
endpoint-provided payload is carried, whatever the response body held. -/
theorem claim5_accepted (u i t : String) (ctx : Option DelegationContext) (a : Bool)
    (tm el : Nat) (r : HttpResponse)
    (h : ¬ ctxDepth ctx > MAX_DEPTH) (h202 : r.status = 202) :
    (delegate u i t ctx a tm (.response r) el).outcome =
      { success := true, status := .accepted,
        result := some "Task accepted, awaiting async result",
        error := none, latencyMs := el } := by
  unfold delegate
  rw [if_neg h]
  simp only []
  rw [if_pos h202]

/-- C5 witness: the amended statement at a concrete 202 response whose
body does carry an endpoint result that `delegate` ignores. -/
theorem claim5_accepted_witness :
    (delegate "b" "i" "t" none true 120000
        (.response ⟨202, "", some "endpoint-result", "null"⟩) 4).outcome =
      { success := true, status := .accepted,
        result := some "Task accepted, awaiting async result",
        error := none, latencyMs := 4 } :=
  claim5_accepted "b" "i" "t" none true 120000 4 ⟨202, "", some "endpoint-result", "null"⟩
    (by decide) rfl

/-- C9 (confirmed): every call that passes the depth guard sends a
payload carrying the delegationId, the task, and a context whose depth
is the caller's depth plus exactly one while the caller's other
key/value pairs pass through unchanged; the payload has a callbackUrl
exactly when the async option was requested. -/
theorem claim9_payload (u i t : String) (ctx : Option DelegationContext) (a : Bool)
    (tm : Nat) (net : FetchOutcome) (el : Nat)
    (h : ¬ ctxDepth ctx > MAX_DEPTH) :
    (delegate u i t ctx a tm net el).payload =
      some { delegationId := i, task := t,
             context := { depth := some (ctxDepth ctx + 1),
                          extra := (ctx.map (fun c => c.extra)).getD [] },
             callbackUrl :=
               if a then some (u ++ "/v1/delegations/" ++ i ++ "/result") else none } ∧
    (((delegate u i t ctx a tm net el).payload.bind (fun b => b.callbackUrl)) ≠ none ↔
      a = true) := by
  have hp : (delegate u i t ctx a tm net el).payload =
      some { delegationId := i, task := t,
             context := { depth := some (ctxDepth ctx + 1),
                          extra := (ctx.map (fun c => c.extra)).getD [] },
             callbackUrl :=
               if a then some (u ++ "/v1/delegations/" ++ i ++ "/result") else none } := by
    unfold delegate
    rw [if_neg h]
    cases net with
    | response r => simp only []; split_ifs <;> rfl
    | exn name msg => simp only []; split_ifs <;> rfl
  refine ⟨hp, ?_⟩
  rw [hp]
  cases a <;> simp

/-- C9 witness: the payload law at a concrete call with caller context
`depth = 2` and one extra pair, async requested. -/
theorem claim9_payload_witness :
    (delegate "http://localhost:8766" "id-7" "summarize"
        (some ⟨some 2, [("trace", "abc")]⟩) true 1000
        (.response ⟨200, "", some "ok", ""⟩) 5).payload =
      some { delegationId := "id-7", task := "summarize",
             context := { depth := some (ctxDepth (some ⟨some 2, [("trace", "abc")]⟩) + 1),
                          extra := ((some ⟨some 2, [("trace", "abc")]⟩ :
                              Option DelegationContext).map (fun c => c.extra)).getD [] },
             callbackUrl :=
               if true then
                 some ("http://localhost:8766" ++ "/v1/delegations/" ++ "id-7" ++ "/result")
               else none } :=
  (claim9_payload "http://localhost:8766" "id-7" "summarize"
    (some ⟨some 2, [("trace", "abc")]⟩) true 1000
    (.response ⟨200, "", some "ok", ""⟩) 5 (by decide)).1

/-- C8 (confirmed): a ledger entry already in a terminal status — the
finalized statuses `completed`/`failed`, the only ones a result delivery
can produce — answers 409 to a result POST and is left unchanged; in
particular after any successful first delivery (which always finalizes
the entry), a second delivery is rejected with 409 and overwrites
nothing. -/
theorem claim8_no_overwrite :
    (∀ d b, (d.status = .completed ∨ d.status = .failed) →
        postDelegationResult (some d) b = (409, some d)) ∧
    (∀ d b₁ b₂, (postDelegationResult (some d) (some b₁)).1 = 200 →
        postDelegationResult (postDelegationResult (some d) (some b₁)).2 (some b₂) =
          (409, (postDelegationResult (some d) (some b₁)).2)) := by
  constructor
  · intro d b hterm
    simp only [postDelegationResult]
    rw [if_pos hterm]
  · intro d b₁ b₂ h200
    by_cases hterm : d.status = .completed ∨ d.status = .failed
    · exfalso
      simp only [postDelegationResult] at h200
      rw [if_pos hterm] at h200
      simp at h200
    · set X := updateDelegationFields d
          (if b₁.status = some "failed" then LedgerStatus.failed else LedgerStatus.completed)
          b₁.result b₁.error with hX
      have hfirst : postDelegationResult (some d) (some b₁) = (200, some X) := by
        simp only [postDelegationResult]
        rw [if_neg hterm]
      rw [hfirst]
      show postDelegationResult (some X) (some b₂) = (409, some X)
      have hstat : X.status = LedgerStatus.completed ∨ X.status = LedgerStatus.failed := by
        rw [hX]
        by_cases hb : b₁.status = some "failed"
        · rw [if_pos hb]
          right
          rfl
        · rw [if_neg hb]
          left
          rfl
      simp only [postDelegationResult]
      rw [if_pos hstat]

/-- C8 witness: a first delivery to an `accepted` entry finalizes it,
and the second delivery then gets 409 without changing the entry. -/
theorem claim8_no_overwrite_witness :
    postDelegationResult
        (postDelegationResult
          (some ⟨"d1", "s", "t", "task", .accepted, none, none, none⟩)
          (some ⟨some "completed", some "out", none⟩)).2
        (some ⟨some "failed", none, some "late"⟩) =
      (409, (postDelegationResult
        (some ⟨"d1", "s", "t", "task", .accepted, none, none, none⟩)
        (some ⟨some "completed", some "out", none⟩)).2) :=
  claim8_no_overwrite.2 ⟨"d1", "s", "t", "task", .accepted, none, none, none⟩
    ⟨some "completed", some "out", none⟩ ⟨some "failed", none, some "late"⟩ (by decide)

/-- When every requirement found a covering grant, exactly one grant was
collected per requirement. -/
theorem matchResources_length {res : List AgentResource} :
    ∀ {l : List ResourceRequirement} {ms : List AgentResource},
      matchResources res l = some ms → ms.length = l.length := by
  intro l
  induction l with
  | nil =>
    intro ms h
    simp only [matchResources] at h
    cases Option.some.inj h
    rfl
  | cons req rest ih =>
    intro ms h
    simp only [matchResources] at h
    cases hf : res.find? (fun r => uriMatches r.uri req.uri) with
    | none => rw [hf] at h; cases h
    | some m =>
      rw [hf] at h
      cases hrec : matchResources res rest with
      | none => rw [hrec] at h; cases h
      | some ms' =>
        rw [hrec] at h
        cases Option.some.inj h
        simp [ih hrec]

/-- Every emitted result comes from some candidate in the input list. -/
theorem mem_discoverAll {tokens : List String} {reqs : Option (List ResourceRequirement)}
    {agents : List AgentRecord} {r : DiscoveryResult} :
    r ∈ discoverAll tokens reqs agents →
      ∃ a, a ∈ agents ∧ scoreAgent tokens reqs a = some r := by
  induction agents with
  | nil => intro h; cases h
  | cons a rest ih =>
    intro h
    unfold discoverAll at h
    cases hsa : scoreAgent tokens reqs a with
    | none =>
      rw [hsa] at h
      obtain ⟨b, hb, hsb⟩ := ih h
      exact ⟨b, List.mem_cons_of_mem a hb, hsb⟩
    | some x =>
      rw [hsa] at h
      rcases List.mem_cons.mp h with rfl | h'
      · exact ⟨a, List.mem_cons_self a rest, hsa⟩
      · obtain ⟨b, hb, hsb⟩ := ih h'
        exact ⟨b, List.mem_cons_of_mem a hb, hsb⟩


/-- `scoreAgent` without requirements: kept candidates carry no matched
resources and an unboosted score. -/
theorem scoreAgent_none_eq {tokens : List String} {a : AgentRecord}
    (hmc : tokens.filter (fun t => strContains (searchText a) t) ≠ []) :
    scoreAgent tokens none a =
      some ⟨a,
        min (((tokens.filter (fun t => strContains (searchText a) t)).length : ℚ) /
          (tokens.length : ℚ) + 0) 1,
        tokens.filter (fun t => strContains (searchText a) t), []⟩ := by
  unfold scoreAgent
  rw [if_neg hmc]

/-- `scoreAgent` with an empty supplied requirement list: the resource
block is skipped and the boost is `0`. -/
theorem scoreAgent_some_nil_eq {tokens : List String} {a : AgentRecord}
    (hmc : tokens.filter (fun t => strContains (searchText a) t) ≠ []) :
    scoreAgent tokens (some []) a =
      some ⟨a,
        min (((tokens.filter (fun t => strContains (searchText a) t)).length : ℚ) /
          (tokens.length : ℚ) + 0) 1,
        tokens.filter (fun t => strContains (searchText a) t), []⟩ := by
  unfold scoreAgent
  rw [if_neg hmc]
  rfl

/-- `scoreAgent` with a nonempty requirement list: the candidate is kept
exactly when every requirement found a covering grant, with the boosted
clamped score. -/
theorem scoreAgent_some_eq {tokens : List String} {a : AgentRecord}
    {l : List ResourceRequirement}
    (hmc : tokens.filter (fun t => strContains (searchText a) t) ≠ []) (hl : l ≠ []) :
    scoreAgent tokens (some l) a =
      match matchResources a.resources l with
      | none => none
      | some mr =>
        some ⟨a,
          min (((tokens.filter (fun t => strContains (searchText a) t)).length : ℚ) /
            (tokens.length : ℚ) + (mr.length : ℚ) / (l.length : ℚ) * (2 / 10)) 1,
          tokens.filter (fun t => strContains (searchText a) t), mr⟩ := by
  unfold scoreAgent
  rw [if_neg hmc]
  simp only [if_neg hl]

/-- What holds of every candidate that `scoreAgent` keeps: its matched
tokens are exactly the query tokens found in its corpus (and nonempty),
a nonempty supplied requirement list was fully matched, and the score is
the clamped sum of the capability ratio and the claim's boost term. -/
theorem scoreAgent_spec {tokens : List String} {reqs : Option (List ResourceRequirement)}
    {a : AgentRecord} {r : DiscoveryResult}
    (h : scoreAgent tokens reqs a = some r) :
    r.agent = a ∧
    r.matchedCapabilities = tokens.filter (fun t => strContains (searchText a) t) ∧
    r.matchedCapabilities ≠ [] ∧
    (∀ l, reqs = some l → l ≠ [] → matchResources a.resources l = some r.matchedResources) ∧
    r.score = min ((r.matchedCapabilities.length : ℚ) / (tokens.length : ℚ) +
        claimBoost reqs r.matchedResources.length) 1 := by
  have hmc : tokens.filter (fun t => strContains (searchText a) t) ≠ [] := by
    intro hmc
    simp only [scoreAgent] at h
    rw [if_pos hmc] at h
    cases h
  cases reqs with
  | none =>
    rw [scoreAgent_none_eq hmc] at h
    cases Option.some.inj h
    refine ⟨rfl, rfl, hmc, ?_, ?_⟩
    · intro l hl
      exact Option.noConfusion hl
    · simp [claimBoost]
  | some l =>
    by_cases hl : l = []
    · subst hl
      rw [scoreAgent_some_nil_eq hmc] at h
      cases Option.some.inj h
      refine ⟨rfl, rfl, hmc, ?_, ?_⟩
      · intro l' hl' hne
        exact absurd (Option.some.inj hl').symm hne
      · simp [claimBoost]
    · rw [scoreAgent_some_eq hmc hl] at h
      cases hmr : matchResources a.resources l with
      | none => rw [hmr] at h; cases h
      | some mr =>
        rw [hmr] at h
        cases Option.some.inj h
        refine ⟨rfl, rfl, hmc, ?_, ?_⟩
        · intro l' hl' hne
          cases Option.some.inj hl'
          exact hmr
        · simp [claimBoost]

/-- Insertion permutes: `insertDesc x l` holds the same elements as
`x :: l`. -/
theorem insertDesc_perm (x : DiscoveryResult) (l : List DiscoveryResult) :
    (insertDesc x l).Perm (x :: l) := by
  induction l with
  | nil => exact List.Perm.refl _
  | cons y ys ih =>
    unfold insertDesc
    by_cases hxy : x.score ≤ y.score
    · rw [if_pos hxy]
      exact (ih.cons y).trans (List.Perm.swap x y ys)
    · rw [if_neg hxy]

/-- Membership in an insertion. -/
theorem mem_insertDesc {z x : DiscoveryResult} {l : List DiscoveryResult} :
    z ∈ insertDesc x l ↔ z = x ∨ z ∈ l := by
  rw [(insertDesc_perm x l).mem_iff]
  exact List.mem_cons

/-- Insertion preserves descending sortedness. -/
theorem insertDesc_sorted {x : DiscoveryResult} {l : List DiscoveryResult}
    (hl : List.Sorted (fun a b : DiscoveryResult => b.score ≤ a.score) l) :
    List.Sorted (fun a b : DiscoveryResult => b.score ≤ a.score) (insertDesc x l) := by
  induction l with
  | nil => simp [insertDesc]
  | cons y ys ih =>
    rw [List.sorted_cons] at hl
    unfold insertDesc
    by_cases hxy : x.score ≤ y.score
    · rw [if_pos hxy, List.sorted_cons]
      refine ⟨?_, ih hl.2⟩
      intro b hb
      rcases mem_insertDesc.mp hb with rfl | hb'
      · exact hxy
      · exact hl.1 b hb'
    · rw [if_neg hxy, List.sorted_cons]
      refine ⟨?_, List.sorted_cons.mpr hl⟩
      intro b hb
      rcases List.mem_cons.mp hb with rfl | hb'
      · exact le_of_not_le hxy
      · exact le_trans (hl.1 b hb') (le_of_not_le hxy)

/-- The fold underlying `sortByScoreDesc`, relative to an accumulator:
it permutes the accumulator followed by the input. -/
theorem foldl_insertDesc_perm (l : List DiscoveryResult) :
    ∀ acc, (l.foldl (fun acc x => insertDesc x acc) acc).Perm (acc ++ l) := by
  induction l with
  | nil => intro acc; simp
  | cons x xs ih =>
    intro acc
    exact (ih (insertDesc x acc)).trans
      (((insertDesc_perm x acc).append_right xs).trans List.perm_middle.symm)

/-- `sortByScoreDesc` permutes its input. -/
theorem sortByScoreDesc_perm (l : List DiscoveryResult) : (sortByScoreDesc l).Perm l := by
  simpa using foldl_insertDesc_perm l []

/-- The fold underlying `sortByScoreDesc` keeps a sorted accumulator
sorted. -/
theorem foldl_insertDesc_sorted (l : List DiscoveryResult) :
    ∀ acc, List.Sorted (fun a b : DiscoveryResult => b.score ≤ a.score) acc →
      List.Sorted (fun a b : DiscoveryResult => b.score ≤ a.score)
        (l.foldl (fun acc x => insertDesc x acc) acc) := by
  induction l with
  | nil => intro acc h; exact h
  | cons x xs ih => intro acc h; exact ih _ (insertDesc_sorted h)

/-- `sortByScoreDesc` sorts by descending score. -/
theorem sortByScoreDesc_sorted (l : List DiscoveryResult) :
    List.Sorted (fun a b : DiscoveryResult => b.score ≤ a.score) (sortByScoreDesc l) :=
  foldl_insertDesc_sorted l [] List.sorted_nil

/-- Inserting into a sorted list puts the new element after every
existing element of equal score: on each score class, insertion
appends. -/
theorem filter_insertDesc (s : ℚ) (x : DiscoveryResult) (l : List DiscoveryResult)
    (hl : List.Sorted (fun a b : DiscoveryResult => b.score ≤ a.score) l) :
    (insertDesc x l).filter (fun z => z.score = s) =
      l.filter (fun z => z.score = s) ++ (if x.score = s then [x] else []) := by
  induction l with
  | nil =>
    by_cases hx : x.score = s <;> simp [insertDesc, hx]
  | cons y ys ih =>
    rw [List.sorted_cons] at hl
    unfold insertDesc
    by_cases hxy : x.score ≤ y.score
    · rw [if_pos hxy, List.filter_cons, List.filter_cons, ih hl.2]
      by_cases hy : y.score = s
      · simp [hy]
      · simp [hy]
    · rw [if_neg hxy, List.filter_cons]
      by_cases hx : x.score = s
      · have hempty : (y :: ys).filter (fun z => z.score = s) = [] := by
          rw [List.filter_eq_nil_iff]
          intro z hz
          have hzy : z.score ≤ y.score := by
            rcases List.mem_cons.mp hz with rfl | hz'
            · exact le_refl _
            · exact hl.1 z hz'
          have hlt : z.score < x.score := lt_of_le_of_lt hzy (lt_of_not_le hxy)
          simp only [decide_eq_true_eq]
          intro hzs
          rw [hzs, ← hx] at hlt
          exact lt_irrefl _ hlt
        simp [hx, hempty]
      · simp [hx]

/-- The fold underlying `sortByScoreDesc` appends each score class of
the input behind that of the (sorted) accumulator. -/
theorem foldl_insertDesc_filter (s : ℚ) (l : List DiscoveryResult) :
    ∀ acc, List.Sorted (fun a b : DiscoveryResult => b.score ≤ a.score) acc →
      (l.foldl (fun acc x => insertDesc x acc) acc).filter (fun z => z.score = s) =
        acc.filter (fun z => z.score = s) ++ l.filter (fun z => z.score = s) := by
  induction l with
  | nil => intro acc h; simp
  | cons x xs ih =>
    intro acc h
    have step : (x :: xs).foldl (fun acc x => insertDesc x acc) acc =
        xs.foldl (fun acc x => insertDesc x acc) (insertDesc x acc) := rfl
    rw [step, ih _ (insertDesc_sorted h), filter_insertDesc s x acc h, List.filter_cons]
    by_cases hx : x.score = s
    · simp [hx]
    · simp [hx]

/-- Sorting leaves each score class of the input untouched, in input
order: the stability of the sort. -/
theorem filter_sortByScoreDesc (s : ℚ) (l : List DiscoveryResult) :
    (sortByScoreDesc l).filter (fun z => z.score = s) = l.filter (fun z => z.score = s) := by
  simpa using foldl_insertDesc_filter s l [] List.sorted_nil

/-- Truncation only drops elements. -/
theorem applyLimit_subset (lim : Option Int) (l : List DiscoveryResult) :
    applyLimit lim l ⊆ l := by
  cases lim with
  | none => exact fun _ h => h
  | some n =>
    unfold applyLimit
    simp only []
    split_ifs
    · exact fun _ h => h
    · exact List.take_subset _ _
    · exact List.take_subset _ _

/-- Truncation preserves descending sortedness. -/
theorem applyLimit_sorted {lim : Option Int} {l : List DiscoveryResult}
    (hl : List.Sorted (fun a b : DiscoveryResult => b.score ≤ a.score) l) :
    List.Sorted (fun a b : DiscoveryResult => b.score ≤ a.score) (applyLimit lim l) := by
  cases lim with
  | none => exact hl
  | some n =>
    unfold applyLimit
    simp only []
    split_ifs
    · exact hl
    · exact List.Pairwise.sublist (List.take_sublist _ _) hl
    · exact List.Pairwise.sublist (List.take_sublist _ _) hl

/-- A positive limit is an honest `take`. -/
theorem applyLimit_pos {n : Int} (hn : 0 < n) (l : List DiscoveryResult) :
    applyLimit (some n) l = l.take n.toNat := by
  unfold applyLimit
  simp only []
  rw [if_neg (by omega), if_pos (le_of_lt hn)]

/-- With no tokens, the candidate loop emits nothing. -/
theorem discoverAll_nil_tokens (reqs : Option (List ResourceRequirement))
    (agents : List AgentRecord) : discoverAll [] reqs agents = [] := by
  induction agents with
  | nil => rfl
  | cons a rest ih =>
    unfold discoverAll
    rw [show scoreAgent [] reqs a = none by simp [scoreAgent]]
    exact ih

/-- Every result of `discover` was emitted by the candidate loop. -/
theorem mem_discover {q : String} {agents : List AgentRecord} {lim : Option Int}
    {reqs : Option (List ResourceRequirement)} {r : DiscoveryResult}
    (h : r ∈ discover q agents lim reqs) :
    r ∈ discoverAll (tokenize q) reqs agents := by
  unfold discover at h
  by_cases ht : tokenize q = []
  · rw [if_pos ht] at h
    cases h
  · rw [if_neg ht] at h
    exact (sortByScoreDesc_perm _).subset (applyLimit_subset _ _ h)

/-- The claim's boost term is nonnegative. -/
theorem claimBoost_nonneg (reqs : Option (List ResourceRequirement)) (k : Nat) :
    0 ≤ claimBoost reqs k := by
  cases reqs with
  | none => simp [claimBoost]
  | some l =>
    simp only [claimBoost]
    positivity

/-- C6 (confirmed): for a query with at least one token, every returned
result's score is `min(matched-token-count / query-token-count + boost,
1)` with boost `(matched-requirement-count / total-requirement-count) ×
0.2` when requirements were supplied and `0` otherwise; every score lies
in `[0, 1]`; and a candidate matching zero tokens never appears (each
result's matched-token list is the nonempty filter of the query tokens
over its corpus). -/
theorem claim6_score_formula (q : String) (agents : List AgentRecord) (lim : Option Int)
    (reqs : Option (List ResourceRequirement)) (r : DiscoveryResult)
    (_htok : tokenize q ≠ []) (hmem : r ∈ discover q agents lim reqs) :
    r.score = min ((r.matchedCapabilities.length : ℚ) / ((tokenize q).length : ℚ) +
        claimBoost reqs r.matchedResources.length) 1 ∧
    0 ≤ r.score ∧ r.score ≤ 1 ∧
    r.matchedCapabilities ≠ [] ∧
    r.matchedCapabilities = (tokenize q).filter (fun t => strContains (searchText r.agent) t) := by
  obtain ⟨a, ha, hsa⟩ := mem_discoverAll (mem_discover hmem)
  obtain ⟨hag, hmc, hne, hreq, hscore⟩ := scoreAgent_spec hsa
  have hcap : 0 ≤ (r.matchedCapabilities.length : ℚ) / ((tokenize q).length : ℚ) := by
    positivity
  refine ⟨hscore, ?_, ?_, hne, ?_⟩
  · rw [hscore]
    exact le_min (add_nonneg hcap (claimBoost_nonneg reqs _)) zero_le_one
  · rw [hscore]
    exact min_le_right _ _
  · rw [hag]
    exact hmc

/-- A fully evaluated one-agent discovery run without requirements,
used to instantiate the discovery claims. -/
theorem discover_sample1 :
    discover "alpha" [⟨"a1", "alpha beta", [], [], "e"⟩] none none =
      [⟨⟨"a1", "alpha beta", [], [], "e"⟩, 1, ["alpha"], []⟩] := by
  unfold discover
  rw [show tokenize "alpha" = ["alpha"] from by decide, if_neg (by decide)]
  unfold discoverAll
  rw [scoreAgent_none_eq (by decide)]
  rw [show (List.filter (fun t => strContains
    (searchText ⟨"a1", "alpha beta", [], [], "e"⟩) t) ["alpha"]) = ["alpha"] from by decide]
  simp only [discoverAll, sortByScoreDesc, applyLimit, List.foldl, insertDesc,
    List.cons.injEq, DiscoveryResult.mk.injEq, and_true, true_and]
  norm_num

/-- A fully evaluated one-agent discovery run with one matched
requirement, used to instantiate the discovery claims. -/
theorem discover_sample2 :
    discover "alpha" [⟨"a1", "alpha", [], [⟨"filesystem", "file://vm1/p/*"⟩], "e"⟩]
        none (some [⟨"file://vm1/p/x"⟩]) =
      [⟨⟨"a1", "alpha", [], [⟨"filesystem", "file://vm1/p/*"⟩], "e"⟩, 1, ["alpha"],
        [⟨"filesystem", "file://vm1/p/*"⟩]⟩] := by
  unfold discover
  rw [show tokenize "alpha" = ["alpha"] from by decide, if_neg (by decide)]
  unfold discoverAll
  rw [scoreAgent_some_eq (by decide) (by decide)]
  rw [show matchResources [⟨"filesystem", "file://vm1/p/*"⟩] [⟨"file://vm1/p/x"⟩] =
    some [⟨"filesystem", "file://vm1/p/*"⟩] from by decide]
  rw [show (List.filter (fun t => strContains
    (searchText ⟨"a1", "alpha", [], [⟨"filesystem", "file://vm1/p/*"⟩], "e"⟩) t) ["alpha"]) =
    ["alpha"] from by decide]
  simp only [discoverAll, sortByScoreDesc, applyLimit, List.foldl, insertDesc,
    List.cons.injEq, DiscoveryResult.mk.injEq, and_true, true_and]
  norm_num

/-- C6 witness: the formula at a one-agent registry whose corpus matches
the single query token. -/
theorem claim6_score_formula_witness :
    (⟨⟨"a1", "alpha beta", [], [], "e"⟩, 1, ["alpha"], []⟩ : DiscoveryResult).score =
      min (((⟨⟨"a1", "alpha beta", [], [], "e"⟩, 1, ["alpha"], []⟩ :
          DiscoveryResult).matchedCapabilities.length : ℚ) /
        ((tokenize "alpha").length : ℚ) +
        claimBoost none (⟨⟨"a1", "alpha beta", [], [], "e"⟩, 1, ["alpha"], []⟩ :
          DiscoveryResult).matchedResources.length) 1 ∧
    0 ≤ (⟨⟨"a1", "alpha beta", [], [], "e"⟩, 1, ["alpha"], []⟩ : DiscoveryResult).score ∧
    (⟨⟨"a1", "alpha beta", [], [], "e"⟩, 1, ["alpha"], []⟩ : DiscoveryResult).score ≤ 1 ∧
    (⟨⟨"a1", "alpha beta", [], [], "e"⟩, 1, ["alpha"], []⟩ :
      DiscoveryResult).matchedCapabilities ≠ [] ∧
    (⟨⟨"a1", "alpha beta", [], [], "e"⟩, 1, ["alpha"], []⟩ :
        DiscoveryResult).matchedCapabilities =
      (tokenize "alpha").filter (fun t => strContains
        (searchText (⟨⟨"a1", "alpha beta", [], [], "e"⟩, 1, ["alpha"], []⟩ :
          DiscoveryResult).agent) t) :=
  claim6_score_formula "alpha" [⟨"a1", "alpha beta", [], [], "e"⟩] none none
    ⟨⟨"a1", "alpha beta", [], [], "e"⟩, 1, ["alpha"], []⟩ (by decide)
    (by
      rw [discover_sample1]
      exact List.mem_singleton.mpr rfl)

/-- C7 counterexample: a supplied limit of `0` does not truncate to at
most `0` entries — `0` is falsy in `limit ? ... : ...`, so the full
result list comes back. -/
theorem claim7_counterexample :
    (discover "alpha" [⟨"a1", "alpha beta", [], [], "e"⟩] (some 0) none).length = 1 := by
  decide

/-- C7 (amended): `discover` output is sorted by descending score for
every limit; with no limit it preserves, score class by score class, the
input-order sequence the candidate loop emitted (stable ties); and a
POSITIVE supplied limit truncates to its first `limit` entries — a
supplied limit of `0` is treated as "no limit" (and a negative limit
drops entries from the end, as `slice` does). -/
theorem claim7_ordering :
    (∀ q agents lim reqs, List.Sorted (fun a b : DiscoveryResult => b.score ≤ a.score)
        (discover q agents lim reqs)) ∧
    (∀ q agents reqs s, (discover q agents none reqs).filter (fun z => z.score = s) =
        (discoverAll (tokenize q) reqs agents).filter (fun z => z.score = s)) ∧
    (∀ q agents reqs n, 0 < n →
        discover q agents (some n) reqs = (discover q agents none reqs).take n.toNat) := by
  refine ⟨?_, ?_, ?_⟩
  · intro q agents lim reqs
    unfold discover
    by_cases ht : tokenize q = []
    · rw [if_pos ht]
      exact List.sorted_nil
    · rw [if_neg ht]
      exact applyLimit_sorted (sortByScoreDesc_sorted _)
  · intro q agents reqs s
    unfold discover
    by_cases ht : tokenize q = []
    · rw [if_pos ht, ht, discoverAll_nil_tokens]
    · rw [if_neg ht]
      exact filter_sortByScoreDesc s _
  · intro q agents reqs n hn
    unfold discover
    simp only []
    by_cases ht : tokenize q = []
    · rw [if_pos ht, if_pos ht, List.take_nil]
    · rw [if_neg ht, if_neg ht, applyLimit_pos hn]
      rfl

/-- C7 witness: the truncation law at a concrete one-agent registry with
limit 1. -/
theorem claim7_ordering_witness :
    discover "alpha" [⟨"a1", "alpha beta", [], [], "e"⟩] (some 1) none =
      (discover "alpha" [⟨"a1", "alpha beta", [], [], "e"⟩] none none).take (1 : Int).toNat :=
  claim7_ordering.2.2 "alpha" [⟨"a1", "alpha beta", [], [], "e"⟩] none 1 (by decide)

/-- C10 (confirmed): with a nonempty requirement list, every returned
result holds exactly one matched grant per requirement, so its resource
boost is exactly `0.2`: the score is `min(capability-ratio + 0.2, 1)`
and the fractional boost formula never yields a partial value on a
returned agent. -/
theorem claim10_full_boost (q : String) (agents : List AgentRecord) (lim : Option Int)
    (l : List ResourceRequirement) (r : DiscoveryResult)
    (hl : l ≠ []) (hmem : r ∈ discover q agents lim (some l)) :
    r.matchedResources.length = l.length ∧
    r.score = min ((r.matchedCapabilities.length : ℚ) / ((tokenize q).length : ℚ) + 2 / 10) 1 := by
  obtain ⟨a, ha, hsa⟩ := mem_discoverAll (mem_discover hmem)
  obtain ⟨hag, hmc, hne, hreq, hscore⟩ := scoreAgent_spec hsa
  have hlen : r.matchedResources.length = l.length := matchResources_length (hreq l rfl hl)
  refine ⟨hlen, ?_⟩
  have hb : claimBoost (some l) r.matchedResources.length = 2 / 10 := by
    simp only [claimBoost, hlen]
    rw [div_self (show ((l.length : ℚ)) ≠ 0 by simpa using hl), one_mul]
  rw [hscore, hb]

/-- C10 witness: one agent granting `file://vm1/p/*`, one requirement
under it — the result carries one matched grant and the full 0.2
boost. -/
theorem claim10_full_boost_witness :
    (⟨⟨"a1", "alpha", [], [⟨"filesystem", "file://vm1/p/*"⟩], "e"⟩, 1, ["alpha"],
        [⟨"filesystem", "file://vm1/p/*"⟩]⟩ : DiscoveryResult).matchedResources.length =
      [(⟨"file://vm1/p/x"⟩ : ResourceRequirement)].length ∧
    (⟨⟨"a1", "alpha", [], [⟨"filesystem", "file://vm1/p/*"⟩], "e"⟩, 1, ["alpha"],
        [⟨"filesystem", "file://vm1/p/*"⟩]⟩ : DiscoveryResult).score =
      min (((⟨⟨"a1", "alpha", [], [⟨"filesystem", "file://vm1/p/*"⟩], "e"⟩, 1, ["alpha"],
          [⟨"filesystem", "file://vm1/p/*"⟩]⟩ :
          DiscoveryResult).matchedCapabilities.length : ℚ) /
        ((tokenize "alpha").length : ℚ) + 2 / 10) 1 :=
  claim10_full_boost "alpha" [⟨"a1", "alpha", [], [⟨"filesystem", "file://vm1/p/*"⟩], "e"⟩]
    none [⟨"file://vm1/p/x"⟩]
    ⟨⟨"a1", "alpha", [], [⟨"filesystem", "file://vm1/p/*"⟩], "e"⟩, 1, ["alpha"],
      [⟨"filesystem", "file://vm1/p/*"⟩]⟩
    (by decide)
    (by
      rw [discover_sample2]
      exact List.mem_singleton.mpr rfl)
